import Mathlib

/-!
Verification of the offer-tracker backup diff engine.

The definitions below are a shallow embedding of the TypeScript source:
  * `src/backup.ts` — `compileBackupReport_`, `areValuesDifferent_`,
    `pairUpSheets_` (report assembler, value equality, sheet pairing);
  * `gasHelpers.ts` — `convertToColumnLetters_` (column label codec).

Modelling choices:
  * A Google-Sheets cell value (`CellValue` in `gasTypeHelpers.ts` is
    `string | number | boolean | Date`, and `areValuesDifferent_`
    additionally duck-types image cells by the presence of a `getUrl`
    accessor) is an inductive with five arms.  JS numbers are modelled
    as rationals; a `Date` is modelled by its `getTime()` value in
    milliseconds (an integer); an image cell by its resolved URL.
  * JS strict equality `===` on two cell values: value equality on the
    primitive arms (string, number, boolean), and reference equality on
    the object arms (`Date`, image).  Two object values reaching the
    `v1 !== v2` fall-through of `areValuesDifferent_` come from two
    distinct snapshots materialised by separate `getValues()` calls, so
    they are never the same reference; the fall-through cases are
    therefore modelled as unequal whenever either side is an object.
  * Template literals are modelled by `toString` and `++`; `${n}` on an
    integer prints exactly as `toString` of the integer.
  * The codec's `RangeError` — thrown inside the cell loop when a
    changed cell's column number fails the guard — is modelled
    explicitly: the fallible comparator `compareSheetPairE_` propagates
    it as `Except.error`, and the total `compareSheetPair_` is proved to
    be the output of every normally-completing run
    (`compareSheetPairE_ok_eq`).
  * The I/O performed by `compileBackupReport_` (opening the newest
    backup file, reading folder metadata, probing for today's backup
    file) belongs to collaborators; the embedding takes the two
    materialised sheet lists and the already-exists flag as arguments
    and models the three report fields the diff engine computes.  The
    three `DriveResource` fields are verbatim copies of collaborator
    metadata and are not modelled.
-/

namespace OfferTracker

/-- A cell value: `string | number | boolean | Date`, plus the
duck-typed image-cell case (`typeof v === "object" && "getUrl" in v`)
that `areValuesDifferent_` recognises at runtime. -/
inductive CellValue where
  | str (s : String)
  | num (q : ℚ)
  | bool (b : Bool)
  /-- A `Date`, identified by its `getTime()` millisecond value. -/
  | date (time : ℤ)
  /-- An image cell, identified by its `getUrl()` value. -/
  | image (url : String)
deriving DecidableEq, Repr

/-- `typeof v === "object"`: `Date`s and image cells are objects. -/
def CellValue.isObject : CellValue → Bool
  | .date _ => true
  | .image _ => true
  | _ => false

/-- JS strict equality `===` on two cell values: no coercion, value
equality on primitives.  Object operands reaching `areValuesDifferent_`'s
fall-through are distinct references (they come from distinct snapshot
materialisations), so `===` is false whenever either side is an object. -/
def jsStrictEq : CellValue → CellValue → Bool
  | .str a, .str b => a == b
  | .num a, .num b => a == b
  | .bool a, .bool b => a == b
  | _, _ => false

/-- `areValuesDifferent_` (backup.ts lines 167–181): both `Date`s →
compare `getTime()`; both image cells → compare `getUrl()`; otherwise
`v1 !== v2`. -/
def areValuesDifferent_ (v1 v2 : CellValue) : Bool :=
  match v1, v2 with
  | .date t1, .date t2 => t1 != t2
  | .image u1, .image u2 => u1 != u2
  | v1, v2 => !(jsStrictEq v1 v2)

/-- The letter-accumulation loop of `convertToColumnLetters_`
(gasHelpers.ts lines 176–188).  With `remainder = r + 1` the loop body
computes `columnGroupValue = (remainder - 1) % 26 = r % 26` and the next
remainder `(remainder - columnGroupValue - 1) / 26 = r / 26`, and
`unshift`s `String.fromCharCode(columnGroupValue + 65)`; the recursion
prepends the letters in the same order.  The `while` loop is modelled
with an explicit iteration bound (first argument): the remainder
strictly decreases on every pass, so starting the bound at the initial
remainder always reaches the `remainder = 0` exit before the bound runs
out, and the bound-exhausted arm is unreachable. -/
def convertToColumnLettersGo : Nat → Nat → List Char
  | _, 0 => []
  | 0, _ + 1 => []
  | fuel + 1, r + 1 =>
    convertToColumnLettersGo fuel (r / 26) ++ [Char.ofNat (r % 26 + 65)]

/-- The codec loop started on a remainder, with an adequate bound. -/
def convertToColumnLettersAux (remainder : Nat) : List Char :=
  convertToColumnLettersGo remainder remainder

/-- The string produced by the codec loop for an in-range column. -/
def convertToColumnLettersStr (column : Nat) : String :=
  String.mk (convertToColumnLettersAux column)

/-- `convertToColumnLetters_` (gasHelpers.ts lines 171–189), including
its guard: `!Number.isInteger(column) || column < 1 || column >= 18278`
throws a `RangeError`, otherwise the loop result is returned.  The JS
number argument is modelled as a rational. -/
def convertToColumnLetters_ (column : ℚ) : Except String String :=
  if ¬column.isInt ∨ column < 1 ∨ 18278 ≤ column then
    Except.error ("Column " ++ toString column ++ " is not a valid integer.")
  else
    Except.ok (convertToColumnLettersStr column.num.toNat)

/-- A sheet: its name (`getName()`) plus the value grid returned by
`getValues_(sheet.getDataRange())`. -/
structure Sheet where
  name : String
  grid : List (List CellValue)
deriving DecidableEq, Repr

/-- The row-count check (backup.ts lines 102–109): when the row counts
differ, push one record with the signed difference rendered as a
magnitude plus a direction word. -/
def rowCountChanges_ (sourceName : String)
    (sourceValues backupValues : List (List CellValue)) : List String :=
  let rowDiff : ℤ := (sourceValues.length : ℤ) - (backupValues.length : ℤ)
  if rowDiff ≠ 0 then
    if rowDiff > 0 then
      [toString rowDiff ++ " row(s) added to sheet " ++ sourceName]
    else
      [toString (rowDiff * -1) ++ " row(s) deleted from sheet " ++ sourceName]
  else []

/-- The column-count check for one row (backup.ts lines 115–122). -/
def colCountChanges_ (sourceName : String)
    (sourceRow backupRow : List CellValue) : List String :=
  let colDiff : ℤ := (sourceRow.length : ℤ) - (backupRow.length : ℤ)
  if colDiff ≠ 0 then
    if colDiff > 0 then
      [toString colDiff ++ " column(s) added to sheet " ++ sourceName]
    else
      [toString (colDiff * -1) ++ " column(s) deleted from sheet " ++ sourceName]
  else []

/-- The record pushed for one changed cell (backup.ts lines 129–134) on
the codec's success path, with the column label the guarded codec
returns there (`convertToColumnLetters_` answers
`Except.ok (convertToColumnLettersStr (j + 1))` whenever it does not
throw).  The guarded call itself, including its `RangeError` at
`j + 1 ≥ 18278`, is modelled by `cellRecordE_` below;
`compareSheetPairE_ok_eq` proves that the total comparison built from
this record agrees with the fallible one on every normally-completing
run. -/
def cellRecord_ (sourceName : String) (i j : Nat) : String :=
  let row := i + 1
  let col := convertToColumnLettersStr (j + 1)
  "Values changed for cell " ++ col ++ toString row ++ " in sheet " ++ sourceName

/-- The inner cell loop for one row (backup.ts lines 124–136):
`for (const [j, sourceValue] of sourceRow.entries())` with
`if (backupRow[j] === undefined) break` runs exactly over
`j < min (len sourceRow) (len backupRow)` (rows from `getValues()` are
dense), pushing one record per differing pair of cells. -/
def cellChanges_ (sourceName : String) (i : Nat)
    (sourceRow backupRow : List CellValue) : List String :=
  (List.range (min sourceRow.length backupRow.length)).filterMap fun j =>
    if areValuesDifferent_ (sourceRow.getD j (.str "")) (backupRow.getD j (.str "")) then
      some (cellRecord_ sourceName i j)
    else none

/-- The per-sheet comparison body (backup.ts lines 99–137) for a pair of
sheets present on both sides: the row-count record, then the outer row
loop `for (const [i, sourceRow] of sourceValues.entries())` with
`if (backupRow === undefined) break`, which runs exactly over
`i < min (len sourceValues) (len backupValues)`, each iteration pushing
its column-count record then its cell records. -/
def compareSheetPair_ (sourceName : String)
    (sourceValues backupValues : List (List CellValue)) : List String :=
  rowCountChanges_ sourceName sourceValues backupValues ++
    (List.range (min sourceValues.length backupValues.length)).flatMap fun i =>
      colCountChanges_ sourceName (sourceValues.getD i []) (backupValues.getD i []) ++
        cellChanges_ sourceName i (sourceValues.getD i []) (backupValues.getD i [])

/-- The changed-cell record exactly as backup.ts line 130 computes it:
through the guarded `convertToColumnLetters_(j + 1)`, whose `RangeError`
at `j + 1 ≥ 18278` is an `Except.error` that propagates and aborts the
whole report. -/
def cellRecordE_ (sourceName : String) (i j : Nat) : Except String String :=
  match convertToColumnLetters_ ((j + 1 : ℕ) : ℚ) with
  | Except.error e => Except.error e
  | Except.ok col =>
      Except.ok ("Values changed for cell " ++ col ++ toString (i + 1) ++
        " in sheet " ++ sourceName)

/-- One iteration of the inner cell loop (backup.ts lines 124–136) with
the codec's failure propagated. -/
def cellChangesEStep_ (sourceName : String) (i : Nat)
    (sourceRow backupRow : List CellValue) (acc : List String) (j : Nat) :
    Except String (List String) :=
  if areValuesDifferent_ (sourceRow.getD j (.str "")) (backupRow.getD j (.str "")) then
    match cellRecordE_ sourceName i j with
    | Except.error e => Except.error e
    | Except.ok line => Except.ok (acc ++ [line])
  else Except.ok acc

/-- The inner cell loop for one row with the codec's `RangeError` path
kept: a throw at any mismatching column aborts the comparison. -/
def cellChangesE_ (sourceName : String) (i : Nat)
    (sourceRow backupRow : List CellValue) : Except String (List String) :=
  (List.range (min sourceRow.length backupRow.length)).foldlM
    (cellChangesEStep_ sourceName i sourceRow backupRow) []

/-- One iteration of the outer row loop (backup.ts lines 111–137) with
the codec's failure propagated. -/
def compareSheetPairEStep_ (sourceName : String)
    (sourceValues backupValues : List (List CellValue))
    (acc : List String) (i : Nat) : Except String (List String) :=
  match cellChangesE_ sourceName i (sourceValues.getD i []) (backupValues.getD i []) with
  | Except.error e => Except.error e
  | Except.ok cells =>
      Except.ok (acc ++
        colCountChanges_ sourceName (sourceValues.getD i []) (backupValues.getD i []) ++
        cells)

/-- The per-sheet comparison body (backup.ts lines 99–137) with the
guarded codec's `RangeError` path kept: the result is the emitted record
list when the comparison completes normally, and the propagated error
when any changed cell sits at a column the codec rejects.  The total
`compareSheetPair_` above is the normal-completion result
(`compareSheetPairE_ok_eq`). -/
def compareSheetPairE_ (sourceName : String)
    (sourceValues backupValues : List (List CellValue)) : Except String (List String) :=
  (List.range (min sourceValues.length backupValues.length)).foldlM
    (compareSheetPairEStep_ sourceName sourceValues backupValues)
    (rowCountChanges_ sourceName sourceValues backupValues)

/-- `new Map(sheets.map(s => [s.getName(), s])).get(name)`: building a
JS `Map` from entries lets a later entry with the same key overwrite an
earlier one, so lookup returns the last sheet with the given name. -/
def mapGet_ (sheets : List Sheet) (name : String) : Option Sheet :=
  sheets.foldl (fun acc s => if s.name == name then some s else acc) none

/-- `map.has(name)` for the same maps. -/
def mapHas_ (sheets : List Sheet) (name : String) : Bool :=
  sheets.any (fun s => s.name == name)

/-- Insertion into a JS `Set`, element by element: an element is kept
exactly when it has not been seen before (`seen` accumulates the
elements already inserted). -/
def setDedupAux : List String → List String → List String
  | _, [] => []
  | seen, x :: xs =>
    if seen.contains x then setDedupAux seen xs
    else x :: setDedupAux (x :: seen) xs

/-- `[...new Set(xs)]`: deduplicate, keeping first occurrences in
insertion order. -/
def setDedup (l : List String) : List String := setDedupAux [] l

/-- The sorted union of sheet names (backup.ts lines 198–203):
`[...new Set([...sourceNames, ...backupNames])].sort()`.  JS `.sort()`
on strings orders lexicographically by code unit; it is modelled with
the lexicographic order on Lean strings. -/
def uniqueSheetNames_ (sourceSheets lastBackupSheets : List Sheet) : List String :=
  List.insertionSort (· ≤ ·)
    (setDedup (sourceSheets.map Sheet.name ++ lastBackupSheets.map Sheet.name))

/-- `pairUpSheets_` (backup.ts lines 189–219): one pair per name in the
sorted union, looked up in the two name-keyed maps. -/
def pairUpSheets_ (sourceSheets lastBackupSheets : List Sheet) :
    List (Option Sheet × Option Sheet) :=
  (uniqueSheetNames_ sourceSheets lastBackupSheets).map fun name =>
    let inSource := mapHas_ sourceSheets name
    let inBackup := mapHas_ lastBackupSheets name
    if inSource && inBackup then
      (mapGet_ sourceSheets name, mapGet_ lastBackupSheets name)
    else if inSource then
      (mapGet_ sourceSheets name, none)
    else
      (none, mapGet_ lastBackupSheets name)

/-- The loop body of `compileBackupReport_` for one sheet pair
(backup.ts lines 85–138).  A `(none, none)` pair never occurs
(`pairUpSheets_` always emits at least one present side; on such a pair
the source would fault calling `getName()` on `null`). -/
def sheetPairChanges_ : Option Sheet × Option Sheet → List String
  | (none, some lastBackupSheet) =>
      ["Sheet " ++ lastBackupSheet.name ++ " deleted from source spreadsheet"]
  | (none, none) => []
  | (some sourceSheet, none) =>
      ["Sheet " ++ sourceSheet.name ++ " added since last backup"]
  | (some sourceSheet, some lastBackupSheet) =>
      compareSheetPair_ sourceSheet.name sourceSheet.grid lastBackupSheet.grid

/-- The three report fields the diff engine computes (backup.ts
`BackupReport` minus the three verbatim `DriveResource` copies). -/
structure BackupReport where
  backupNeeded : Bool
  backupAlreadyExists : Bool
  changes : List String
deriving DecidableEq, Repr

/-- `compileBackupReport_` (backup.ts lines 70–162) on materialised
inputs: `sourceSheets` from `sourceSpreadsheet.getSheets()`,
`lastBackupSheets` from the newest file of the backups folder, and
`alreadyExists` from `backupsFolder.getFilesByName(...).hasNext()`. -/
def compileBackupReport_ (sourceSheets lastBackupSheets : List Sheet)
    (alreadyExists : Bool) : BackupReport :=
  let detectedChanges :=
    (pairUpSheets_ sourceSheets lastBackupSheets).flatMap sheetPairChanges_
  { backupNeeded := decide (detectedChanges.length > 0)
    changes := detectedChanges
    backupAlreadyExists := alreadyExists }

/-- `typeof v === "object" && v instanceof Date` as a Bool predicate. -/
def CellValue.isDate : CellValue → Bool
  | .date _ => true
  | _ => false

/-- The duck-typed image test `typeof v === "object" && "getUrl" in v`. -/
def CellValue.isImage : CellValue → Bool
  | .image _ => true
  | _ => false

/-- Comparing a cell value with itself never reports a difference. -/
theorem areValuesDifferent_self (v : CellValue) : areValuesDifferent_ v v = false := by
  cases v <;> simp [areValuesDifferent_, jsStrictEq]

/-- Comparing a grid with itself yields no change records. -/
theorem compareSheetPair_self (name : String) (g : List (List CellValue)) :
    compareSheetPair_ name g g = [] := by
  simp [compareSheetPair_, rowCountChanges_, colCountChanges_, cellChanges_,
    areValuesDifferent_self]

theorem foldl_mapGet_skip (n : String) (l : List Sheet) (acc : Option Sheet)
    (h : ∀ s ∈ l, (s.name == n) = false) :
    l.foldl (fun acc s => if s.name == n then some s else acc) acc = acc := by
  induction l generalizing acc with
  | nil => rfl
  | cons s rest ih =>
    simp only [List.foldl_cons, h s (by simp)]
    exact ih acc (fun x hx => h x (by simp [hx]))

theorem mapGet_eq_none (l : List Sheet) (n : String) (h : mapHas_ l n = false) :
    mapGet_ l n = none := by
  simp only [mapHas_, List.any_eq_false] at h
  exact foldl_mapGet_skip n l none (fun s hs => by simpa using h s hs)

/-- C1: Comparing a snapshot against an identical copy of itself yields
an empty change list and `backupNeeded = false`. -/
theorem c1_identity_report (snapshot : List Sheet) (alreadyExists : Bool) :
    (compileBackupReport_ snapshot snapshot alreadyExists).changes = [] ∧
    (compileBackupReport_ snapshot snapshot alreadyExists).backupNeeded = false := by
  have hchanges :
      (pairUpSheets_ snapshot snapshot).flatMap sheetPairChanges_ = [] := by
    rw [List.flatMap_eq_nil_iff]
    intro pr hpr
    simp only [pairUpSheets_, List.mem_map] at hpr
    obtain ⟨n, -, rfl⟩ := hpr
    by_cases hhas : mapHas_ snapshot n = true
    · simp only [hhas, Bool.and_self, if_true]
      cases hget : mapGet_ snapshot n with
      | none => simp [sheetPairChanges_]
      | some s => simp [sheetPairChanges_, compareSheetPair_self]
    · have hfalse : mapHas_ snapshot n = false := by
        cases h : mapHas_ snapshot n
        · rfl
        · exact absurd h hhas
      simp [hfalse, mapGet_eq_none snapshot n hfalse, sheetPairChanges_]
  constructor
  · simpa [compileBackupReport_] using hchanges
  · simp [compileBackupReport_, hchanges]

/-- C9: In every report the compilation produces, `backupNeeded` is true
iff the `changes` sequence is non-empty. -/
theorem c9_backup_needed_iff_changes (sourceSheets lastBackupSheets : List Sheet)
    (alreadyExists : Bool) :
    (compileBackupReport_ sourceSheets lastBackupSheets alreadyExists).backupNeeded = true ↔
    (compileBackupReport_ sourceSheets lastBackupSheets alreadyExists).changes ≠ [] := by
  simp only [compileBackupReport_, gt_iff_lt, decide_eq_true_eq]
  exact List.length_pos

/-- C8: The `changes` list and the `backupNeeded` flag do not depend on
the already-exists signal; moreover a report with `backupNeeded = true`
and `backupAlreadyExists = true` is representable and is not coerced to
false. -/
theorem c8_flag_independence :
    (∀ (sourceSheets lastBackupSheets : List Sheet) (e1 e2 : Bool),
      (compileBackupReport_ sourceSheets lastBackupSheets e1).changes =
        (compileBackupReport_ sourceSheets lastBackupSheets e2).changes ∧
      (compileBackupReport_ sourceSheets lastBackupSheets e1).backupNeeded =
        (compileBackupReport_ sourceSheets lastBackupSheets e2).backupNeeded) ∧
    (∃ (sourceSheets lastBackupSheets : List Sheet),
      (compileBackupReport_ sourceSheets lastBackupSheets true).backupNeeded = true ∧
      (compileBackupReport_ sourceSheets lastBackupSheets true).backupAlreadyExists = true) :=
  ⟨fun _ _ _ _ => ⟨rfl, rfl⟩,
   ⟨[⟨"A", [[.str "x"]]⟩], [⟨"A", [[.str "y"]]⟩], by decide⟩⟩

/-- C10: The value-difference predicate is symmetric. -/
theorem c10_values_different_symm (a b : CellValue) :
    areValuesDifferent_ a b = areValuesDifferent_ b a := by
  cases a <;> cases b <;>
    simp [areValuesDifferent_, jsStrictEq, bne, BEq.comm, eq_comm]

/-- C4: If both operands are instants, they are equal iff they denote
the same absolute point in time; if neither the instant case nor the
image-reference case applies (including mixed-kind operands), they are
equal iff identical under strict, no-coercion equality — in particular a
text value and a numeric value are never equal. -/
theorem c4_value_equality :
    (∀ a b : CellValue,
      (∀ t u : ℤ, a = CellValue.date t → b = CellValue.date u →
        (areValuesDifferent_ a b = false ↔ t = u)) ∧
      ((a.isDate && b.isDate) = false → (a.isImage && b.isImage) = false →
        (areValuesDifferent_ a b = false ↔ jsStrictEq a b = true))) ∧
    (∀ (s : String) (q : ℚ), areValuesDifferent_ (.str s) (.num q) = true) := by
  refine ⟨fun a b => ⟨?_, ?_⟩, fun s q => by simp [areValuesDifferent_, jsStrictEq]⟩
  · rintro t u rfl rfl
    simp [areValuesDifferent_]
  · intro hdate himage
    cases a <;> cases b <;>
      simp_all [areValuesDifferent_, jsStrictEq, CellValue.isDate, CellValue.isImage]

/-- C4 witness: the instant case at two equal concrete instants, and
the strict-equality case at a concrete text/number pair. -/
theorem c4_value_equality_witness :
    (areValuesDifferent_ (CellValue.date 5) (CellValue.date 5) = false ↔ (5 : ℤ) = 5) ∧
    (areValuesDifferent_ (CellValue.str "1") (CellValue.num 1) = false ↔
      jsStrictEq (CellValue.str "1") (CellValue.num 1) = true) :=
  ⟨(c4_value_equality.1 (CellValue.date 5) (CellValue.date 5)).1 5 5 rfl rfl,
   (c4_value_equality.1 (CellValue.str "1") (CellValue.num 1)).2 (by decide) (by decide)⟩

theorem filterMap_ite_eq_filter_map {α β : Type} (p : α → Bool) (g : α → β) (l : List α) :
    (l.filterMap fun a => if p a then some (g a) else none) = (l.filter p).map g := by
  induction l with
  | nil => rfl
  | cons x xs ih =>
    by_cases h : p x <;> simp [List.filterMap_cons, List.filter_cons, h, ih]

/-- A successful run of the guarded codec returns exactly the loop
string. -/
theorem convertToColumnLetters_ok_val (q : ℚ) (col : String)
    (h : convertToColumnLetters_ q = Except.ok col) :
    col = convertToColumnLettersStr q.num.toNat := by
  rw [convertToColumnLetters_] at h
  split at h
  · exact absurd h (by simp)
  · simpa using h.symm

/-- A successful run of the guarded cell-record computation returns
exactly the total model's record. -/
theorem cellRecordE_ok_val (sourceName : String) (i j : Nat) (line : String)
    (h : cellRecordE_ sourceName i j = Except.ok line) :
    line = cellRecord_ sourceName i j := by
  rw [cellRecordE_] at h
  cases hc : convertToColumnLetters_ ((j + 1 : ℕ) : ℚ) with
  | error e =>
    rw [hc] at h
    exact absurd h (by simp)
  | ok col =>
    rw [hc] at h
    have hcol : col = convertToColumnLettersStr (((j + 1 : ℕ) : ℚ)).num.toNat :=
      convertToColumnLetters_ok_val _ _ hc
    have hnum : (((j + 1 : ℕ) : ℚ)).num.toNat = j + 1 := by
      rw [Rat.num_natCast]
      omega
    rw [hnum] at hcol
    rw [hcol] at h
    exact (Except.ok.inj h).symm

/-- On a normally-completing run, the fallible cell loop's output over a
list of column indices is one total-model record per mismatching index,
in order. -/
theorem foldlM_cellChangesEStep (sourceName : String) (i : Nat)
    (sourceRow backupRow : List CellValue) :
    ∀ (js : List Nat) (acc l : List String),
      js.foldlM (cellChangesEStep_ sourceName i sourceRow backupRow) acc = Except.ok l →
      l = acc ++ (js.filter (fun j =>
          areValuesDifferent_ (sourceRow.getD j (.str "")) (backupRow.getD j (.str "")))).map
        (fun j => cellRecord_ sourceName i j) := by
  intro js
  induction js with
  | nil =>
    intro acc l h
    simp only [List.foldlM_nil] at h
    have h' : Except.ok acc = Except.ok l := h
    simp [(Except.ok.inj h').symm]
  | cons j js ih =>
    intro acc l h
    rw [List.foldlM_cons] at h
    by_cases hd : areValuesDifferent_ (sourceRow.getD j (.str ""))
        (backupRow.getD j (.str "")) = true
    · rw [cellChangesEStep_, if_pos hd] at h
      cases hrec : cellRecordE_ sourceName i j with
      | error e =>
        rw [hrec] at h
        have h' : (Except.error e : Except String (List String)) = Except.ok l := h
        exact Except.noConfusion h'
      | ok line =>
        rw [hrec] at h
        have h' : js.foldlM (cellChangesEStep_ sourceName i sourceRow backupRow)
            (acc ++ [line]) = Except.ok l := h
        have hrest := ih (acc ++ [line]) l h'
        rw [cellRecordE_ok_val sourceName i j line hrec] at hrest
        subst hrest
        rw [List.filter_cons, if_pos hd, List.map_cons]
        simp
    · rw [cellChangesEStep_, if_neg hd] at h
      have h' : js.foldlM (cellChangesEStep_ sourceName i sourceRow backupRow)
          acc = Except.ok l := h
      have hrest := ih acc l h'
      subst hrest
      rw [List.filter_cons, if_neg hd]

/-- On a normally-completing run, the fallible row loop's output over a
list of row indices is the total model's per-row output, in order. -/
theorem foldlM_compareSheetPairEStep (sourceName : String)
    (sourceValues backupValues : List (List CellValue)) :
    ∀ (rows : List Nat) (acc l : List String),
      rows.foldlM (compareSheetPairEStep_ sourceName sourceValues backupValues) acc =
        Except.ok l →
      l = acc ++ rows.flatMap (fun i =>
        colCountChanges_ sourceName (sourceValues.getD i []) (backupValues.getD i []) ++
          cellChanges_ sourceName i (sourceValues.getD i []) (backupValues.getD i [])) := by
  intro rows
  induction rows with
  | nil =>
    intro acc l h
    have h' : Except.ok acc = Except.ok l := h
    simp [(Except.ok.inj h').symm]
  | cons i rows ih =>
    intro acc l h
    rw [List.foldlM_cons] at h
    cases hc : cellChangesE_ sourceName i (sourceValues.getD i []) (backupValues.getD i []) with
    | error e =>
      rw [compareSheetPairEStep_, hc] at h
      have h' : (Except.error e : Except String (List String)) = Except.ok l := h
      exact Except.noConfusion h'
    | ok cells =>
      rw [compareSheetPairEStep_, hc] at h
      have h' : rows.foldlM (compareSheetPairEStep_ sourceName sourceValues backupValues)
          (acc ++ colCountChanges_ sourceName (sourceValues.getD i [])
            (backupValues.getD i []) ++ cells) = Except.ok l := h
      have hcells : cells =
          cellChanges_ sourceName i (sourceValues.getD i []) (backupValues.getD i []) := by
        rw [cellChangesE_] at hc
        have h1 := foldlM_cellChangesEStep sourceName i (sourceValues.getD i [])
          (backupValues.getD i []) _ [] cells hc
        rw [cellChanges_, filterMap_ite_eq_filter_map]
        simpa using h1
      have hrest := ih _ l h'
      subst hrest
      rw [hcells]
      simp [List.flatMap_cons]

/-- On every normally-completing run the fallible per-sheet comparison's
output is exactly the total comparison model. -/
theorem compareSheetPairE_ok_eq (sourceName : String)
    (sourceValues backupValues : List (List CellValue)) (out : List String)
    (h : compareSheetPairE_ sourceName sourceValues backupValues = Except.ok out) :
    out = compareSheetPair_ sourceName sourceValues backupValues := by
  rw [compareSheetPairE_] at h
  have hout := foldlM_compareSheetPairEStep sourceName sourceValues backupValues
    (List.range (min sourceValues.length backupValues.length))
    (rowCountChanges_ sourceName sourceValues backupValues) out h
  rw [compareSheetPair_]
  exact hout

/-- C2: Whenever the grid comparison of a sheet pair present on both
sides completes normally — the guarded column codec accepts every
mismatching column, which is the only case in which the source emits
anything at all — its emitted output is exactly the total comparison
model, it contains one cell-changed record for every position `(i, j)`
with `i` below the smaller row count and `j` below the smaller length of
the two rows at index `i` whose values differ, and each row's cell
records are exactly the mismatching column indices, in order — nothing
stops early on the first difference. -/
theorem c2_cell_changes_complete (sourceName : String)
    (sourceValues backupValues : List (List CellValue)) (out : List String)
    (hok : compareSheetPairE_ sourceName sourceValues backupValues = Except.ok out) :
    out = compareSheetPair_ sourceName sourceValues backupValues ∧
    (∀ i j, i < min sourceValues.length backupValues.length →
      j < min (sourceValues.getD i []).length (backupValues.getD i []).length →
      areValuesDifferent_ ((sourceValues.getD i []).getD j (.str ""))
        ((backupValues.getD i []).getD j (.str "")) = true →
      cellRecord_ sourceName i j ∈ out) ∧
    (∀ i, cellChanges_ sourceName i (sourceValues.getD i []) (backupValues.getD i []) =
      ((List.range (min (sourceValues.getD i []).length (backupValues.getD i []).length)).filter
          (fun j => areValuesDifferent_ ((sourceValues.getD i []).getD j (.str ""))
            ((backupValues.getD i []).getD j (.str "")))).map
        (fun j => cellRecord_ sourceName i j)) := by
  have hbridge := compareSheetPairE_ok_eq sourceName sourceValues backupValues out hok
  refine ⟨hbridge, ?_, fun i => by rw [cellChanges_]; exact filterMap_ite_eq_filter_map _ _ _⟩
  intro i j hi hj hdiff
  rw [hbridge]
  unfold compareSheetPair_
  refine List.mem_append_right _ ?_
  refine List.mem_flatMap.mpr ⟨i, List.mem_range.mpr hi, ?_⟩
  refine List.mem_append_right _ ?_
  unfold cellChanges_
  exact List.mem_filterMap.mpr ⟨j, List.mem_range.mpr hj, by rw [hdiff]; rfl⟩

/-- C2 witness: a concrete comparison that completes normally, with the
mismatching cell at position (0, 0) reported in its output. -/
theorem c2_cell_changes_complete_witness :
    cellRecord_ "S" 0 0 ∈ ["Values changed for cell A1 in sheet S"] :=
  (c2_cell_changes_complete "S" [[CellValue.str "a"]] [[CellValue.str "b"]]
      ["Values changed for cell A1 in sheet S"] rfl).2.1
    0 0 (by decide) (by decide) (by decide)

/-- C3 counterexample: two comparisons whose only column-count delta
sits at row index 0 in the first and at row index 1 in the second
produce the very same single change record, so the emitted
column-count-delta record does not carry the row index. -/
theorem c3_counterexample :
    compareSheetPair_ "S" [[CellValue.str "x", CellValue.str "x"], [CellValue.str "x"]]
        [[CellValue.str "x"], [CellValue.str "x"]] =
      ["1 column(s) added to sheet S"] ∧
    compareSheetPair_ "S" [[CellValue.str "x"], [CellValue.str "x", CellValue.str "x"]]
        [[CellValue.str "x"], [CellValue.str "x"]] =
      ["1 column(s) added to sheet S"] := by decide

/-- Modelled from the spec, amended by the counterexample: the rendering
of one column-count-delta record, carrying the sheet name and the signed
delta (as a magnitude plus a direction word) — and no row index. -/
def columnCountRecord (sheetName : String) (delta : ℤ) : String :=
  if 0 < delta then toString delta ++ " column(s) added to sheet " ++ sheetName
  else toString (delta * -1) ++ " column(s) deleted from sheet " ++ sheetName

/-- C3 amended: for every row index below both row counts whose two rows
have different lengths, the comparison emits exactly one
column-count-delta record, carrying the sheet name and the signed delta
rendered as a magnitude plus a direction word — but not the row index. -/
theorem c3_column_record_amended (sourceName : String)
    (sourceValues backupValues : List (List CellValue)) (i : Nat)
    (sourceRow backupRow : List CellValue)
    (hi : i < min sourceValues.length backupValues.length)
    (h1 : sourceValues.getD i [] = sourceRow) (h2 : backupValues.getD i [] = backupRow) :
    (sourceRow.length ≠ backupRow.length →
      colCountChanges_ sourceName sourceRow backupRow =
        [columnCountRecord sourceName
          ((sourceRow.length : ℤ) - (backupRow.length : ℤ))]) ∧
    (sourceRow.length = backupRow.length →
      colCountChanges_ sourceName sourceRow backupRow = []) := by
  constructor
  · intro hne
    have hd : ((sourceRow.length : ℤ) - (backupRow.length : ℤ)) ≠ 0 := by omega
    simp only [colCountChanges_, columnCountRecord, hd, if_false, ite_not, if_true]
    simp [hd]
    split <;> rfl
  · intro heq
    simp [colCountChanges_, heq]

/-- C3 amended witness: a concrete row pair with lengths 2 and 1 emits
the single record for delta `+1`, and a concrete equal-length row pair
emits nothing. -/
theorem c3_column_record_amended_witness :
    ([CellValue.str "x", CellValue.str "x"].length ≠ [CellValue.str "x"].length →
      colCountChanges_ "S" [CellValue.str "x", CellValue.str "x"] [CellValue.str "x"] =
        [columnCountRecord "S"
          (([CellValue.str "x", CellValue.str "x"].length : ℤ) -
            ([CellValue.str "x"].length : ℤ))]) ∧
    ([CellValue.str "x", CellValue.str "x"].length = [CellValue.str "x"].length →
      colCountChanges_ "S" [CellValue.str "x", CellValue.str "x"] [CellValue.str "x"] = []) :=
  c3_column_record_amended "S" [[CellValue.str "x", CellValue.str "x"]] [[CellValue.str "x"]]
    0 [CellValue.str "x", CellValue.str "x"] [CellValue.str "x"] (by decide) rfl rfl

/-- C6: The column label codec raises its caller error exactly when its
argument is not an integer, is less than 1, or is not below the maximum
supported width of 18277 inclusive; on every integer in [1, 18277] it
returns normally. -/
theorem c6_codec_guard (column : ℚ) :
    ((∃ s, convertToColumnLetters_ column = Except.ok s) ↔
      (column.isInt = true ∧ 1 ≤ column ∧ column ≤ 18277)) ∧
    ((∃ msg, convertToColumnLetters_ column = Except.error msg) ↔
      (column.isInt = false ∨ column < 1 ∨ 18277 < column)) := by
  have hcond : (¬column.isInt = true ∨ column < 1 ∨ 18278 ≤ column) ↔
      (column.isInt = false ∨ column < 1 ∨ 18277 < column) := by
    by_cases hint : column.isInt = true
    · have hden : column.den = 1 := by
        simpa [Rat.isInt] using hint
      have hnum : (column.num : ℚ) = column := Rat.coe_int_num_of_den_eq_one hden
      constructor
      · rintro (h | h | h)
        · exact absurd hint h
        · exact Or.inr (Or.inl h)
        · refine Or.inr (Or.inr ?_)
          rw [← hnum] at h ⊢
          exact_mod_cast (by exact_mod_cast h : (18278 : ℤ) ≤ column.num).trans_lt'
            (by omega)
      · rintro (h | h | h)
        · rw [hint] at h; exact absurd h (by simp)
        · exact Or.inr (Or.inl h)
        · refine Or.inr (Or.inr ?_)
          rw [← hnum] at h ⊢
          have : (18277 : ℤ) < column.num := by exact_mod_cast h
          exact_mod_cast (by omega : (18278 : ℤ) ≤ column.num)
    · simp only [hint, not_false_iff, true_or, iff_true]
      exact Or.inl (by simpa using hint)
  constructor
  · constructor
    · rintro ⟨s, hs⟩
      rw [convertToColumnLetters_] at hs
      split at hs
      · exact absurd hs (by simp)
      · rename_i hguard
        push_neg at hguard
        obtain ⟨h1, h2, h3⟩ := hguard
        refine ⟨by simpa using h1, h2, ?_⟩
        have hden : column.den = 1 := by
          simpa [Rat.isInt] using (by simpa using h1 : column.isInt = true)
        have hnum : (column.num : ℚ) = column := Rat.coe_int_num_of_den_eq_one hden
        rw [← hnum]
        rw [← hnum] at h3
        have : column.num < 18278 := by exact_mod_cast h3
        exact_mod_cast (by omega : column.num ≤ (18277 : ℤ))
    · rintro ⟨h1, h2, h3⟩
      refine ⟨convertToColumnLettersStr column.num.toNat, ?_⟩
      rw [convertToColumnLetters_, if_neg]
      rw [not_or, not_or]
      refine ⟨by simp [h1], not_lt.mpr h2, ?_⟩
      intro habs
      exact absurd (hcond.mp (Or.inr (Or.inr habs)))
        (by simp [h1, not_lt.mpr h2, not_lt.mpr h3])
  · constructor
    · rintro ⟨msg, hmsg⟩
      rw [convertToColumnLetters_] at hmsg
      split at hmsg
      · rename_i hguard
        exact hcond.mp hguard
      · exact absurd hmsg (by simp)
    · intro h
      refine ⟨"Column " ++ toString column ++ " is not a valid integer.", ?_⟩
      rw [convertToColumnLetters_, if_pos (hcond.mpr h)]

/-- Modelled from the spec: the inverse bijective-base-26 decode of a
column label, reading letters most-significant first with A = 1 … Z = 26
and no zero digit. -/
def decodeColumnLabel (s : String) : ℕ :=
  s.data.foldl (fun acc c => acc * 26 + (c.toNat - 64)) 0

theorem char_ofNat_toNat_letter (g : ℕ) (h : g < 26) :
    (Char.ofNat (g + 65)).toNat = g + 65 := by
  interval_cases g <;> rfl

theorem decode_convertToColumnLettersGo (fuel : ℕ) :
    ∀ r : ℕ, r ≤ fuel →
      (convertToColumnLettersGo fuel r).foldl (fun acc c => acc * 26 + (c.toNat - 64)) 0 = r := by
  induction fuel with
  | zero =>
    intro r hr
    interval_cases r
    rfl
  | succ fuel ih =>
    intro r hr
    cases r with
    | zero => rfl
    | succ r' =>
      rw [convertToColumnLettersGo, List.foldl_append,
        ih (r' / 26) (le_trans (Nat.div_le_self r' 26) (Nat.lt_succ_iff.mp hr))]
      simp only [List.foldl_cons, List.foldl_nil]
      rw [char_ofNat_toNat_letter (r' % 26) (Nat.mod_lt r' (by norm_num))]
      omega

/-- Decoding the codec's label returns the encoded column number. -/
theorem decode_convertToColumnLettersStr (n : ℕ) :
    decodeColumnLabel (convertToColumnLettersStr n) = n :=
  decode_convertToColumnLettersGo n n le_rfl

/-- C7: For every integer in [1, 701] the codec accepts the column and
produces its bijective base-26 label, whose inverse decode returns the
column; in particular column 27 labels to "AA" and column 28 to "AB". -/
theorem c7_codec_roundtrip :
    (∀ n : ℕ, 1 ≤ n → n ≤ 701 →
      convertToColumnLetters_ (n : ℚ) = Except.ok (convertToColumnLettersStr n) ∧
      decodeColumnLabel (convertToColumnLettersStr n) = n) ∧
    convertToColumnLettersStr 27 = "AA" ∧ convertToColumnLettersStr 28 = "AB" := by
  refine ⟨fun n h1 h701 => ⟨?_, decode_convertToColumnLettersStr n⟩, by decide, by decide⟩
  rw [convertToColumnLetters_, if_neg]
  · simp
  · rw [not_or, not_or]
    refine ⟨by simp [Rat.isInt], not_lt.mpr (by exact_mod_cast h1), not_le.mpr ?_⟩
    calc (n : ℚ) ≤ 701 := by exact_mod_cast h701
    _ < 18278 := by norm_num

/-- C7 witness: the round trip holds at the concrete column 27. -/
theorem c7_codec_roundtrip_witness :
    convertToColumnLetters_ ((27 : ℕ) : ℚ) = Except.ok (convertToColumnLettersStr 27) ∧
    decodeColumnLabel (convertToColumnLettersStr 27) = 27 :=
  c7_codec_roundtrip.1 27 (by decide) (by decide)

theorem mem_setDedupAux (a : String) :
    ∀ (l seen : List String), a ∈ setDedupAux seen l ↔ a ∈ l ∧ a ∉ seen := by
  intro l
  induction l with
  | nil => intro seen; simp [setDedupAux]
  | cons x xs ih =>
    intro seen
    by_cases hx : seen.contains x
    · have hxmem : x ∈ seen := by simpa using hx
      rw [setDedupAux, if_pos hx, ih]
      constructor
      · rintro ⟨hxs, hseen⟩; exact ⟨List.mem_cons_of_mem x hxs, hseen⟩
      · rintro ⟨hcons, hseen⟩
        rcases List.mem_cons.mp hcons with rfl | hxs
        · exact absurd hxmem hseen
        · exact ⟨hxs, hseen⟩
    · have hxmem : x ∉ seen := by simpa using hx
      rw [setDedupAux, if_neg hx]
      constructor
      · intro hmem
        rcases List.mem_cons.mp hmem with rfl | htail
        · exact ⟨List.mem_cons_self a xs, hxmem⟩
        · obtain ⟨hxs, hseen⟩ := (ih (x :: seen)).mp htail
          exact ⟨List.mem_cons_of_mem x hxs,
            fun hs => hseen (List.mem_cons_of_mem x hs)⟩
      · rintro ⟨hcons, hseen⟩
        rcases List.mem_cons.mp hcons with rfl | hxs
        · exact List.mem_cons_self a _
        · by_cases hax : a = x
          · exact hax ▸ List.mem_cons_self x _
          · exact List.mem_cons_of_mem x ((ih (x :: seen)).mpr
              ⟨hxs, by simp [hax, hseen]⟩)

theorem nodup_setDedupAux : ∀ (l seen : List String), (setDedupAux seen l).Nodup := by
  intro l
  induction l with
  | nil => intro seen; simp [setDedupAux]
  | cons x xs ih =>
    intro seen
    by_cases hx : seen.contains x
    · rw [setDedupAux, if_pos hx]; exact ih seen
    · rw [setDedupAux, if_neg hx]
      refine List.nodup_cons.mpr ⟨?_, ih (x :: seen)⟩
      intro hmem
      exact ((mem_setDedupAux x xs (x :: seen)).mp hmem).2 (List.mem_cons_self x seen)

theorem mem_setDedup (a : String) (l : List String) : a ∈ setDedup l ↔ a ∈ l := by
  rw [setDedup, mem_setDedupAux]
  simp

theorem nodup_setDedup (l : List String) : (setDedup l).Nodup :=
  nodup_setDedupAux l []

/-- The sorted union of sheet names is strictly sorted. -/
theorem uniqueSheetNames_sorted (sourceSheets lastBackupSheets : List Sheet) :
    List.Sorted (· < ·) (uniqueSheetNames_ sourceSheets lastBackupSheets) := by
  have hsorted : List.Sorted (· ≤ ·) (uniqueSheetNames_ sourceSheets lastBackupSheets) :=
    List.sorted_insertionSort _ _
  have hnodup : (uniqueSheetNames_ sourceSheets lastBackupSheets).Nodup :=
    (List.perm_insertionSort _ _).nodup_iff.mpr (nodup_setDedup _)
  exact hsorted.lt_of_le hnodup

/-- The sorted union of sheet names holds exactly the names present on
either side. -/
theorem mem_uniqueSheetNames (sourceSheets lastBackupSheets : List Sheet) (n : String) :
    n ∈ uniqueSheetNames_ sourceSheets lastBackupSheets ↔
      (n ∈ sourceSheets.map Sheet.name ∨ n ∈ lastBackupSheets.map Sheet.name) := by
  rw [uniqueSheetNames_, (List.perm_insertionSort _ _).mem_iff, mem_setDedup]
  exact List.mem_append

/-- Under unique names, the JS-`Map` lookup agrees with first-match
search. -/
theorem mapGet_eq_find (l : List Sheet) (n : String)
    (h : (l.map Sheet.name).Nodup) :
    mapGet_ l n = l.find? (fun s => s.name == n) := by
  induction l with
  | nil => rfl
  | cons s rest ih =>
    simp only [List.map_cons, List.nodup_cons] at h
    obtain ⟨hnotin, hrest⟩ := h
    by_cases hs : s.name = n
    · have hskip : ∀ x ∈ rest, (x.name == n) = false := by
        intro x hx
        have hne : x.name ≠ s.name := by
          intro he
          exact hnotin (he ▸ List.mem_map_of_mem Sheet.name hx)
        simp [hs ▸ hne]
      rw [mapGet_, List.foldl_cons]
      simp only [hs, beq_self_eq_true, if_true]
      rw [foldl_mapGet_skip n rest (some s) hskip]
      rw [List.find?_cons_of_pos _ (by simp [hs])]
    · rw [mapGet_, List.foldl_cons]
      simp only [show (s.name == n) = false by simp [hs], Bool.false_eq_true, if_false]
      rw [List.find?_cons_of_neg _ (by simp [hs])]
      exact ih hrest

theorem find?_name_eq_none (l : List Sheet) (n : String)
    (h : mapHas_ l n = false) :
    l.find? (fun s => s.name == n) = none := by
  rw [List.find?_eq_none]
  intro x hx
  simp only [mapHas_, List.any_eq_false] at h
  simpa using h x hx

theorem foldl_mapGet_isSome (n : String) :
    ∀ (l : List Sheet) (acc : Option Sheet),
      (mapHas_ l n = true ∨ acc.isSome = true) →
      (l.foldl (fun acc s => if s.name == n then some s else acc) acc).isSome = true := by
  intro l
  induction l with
  | nil =>
    intro acc h
    rcases h with h | h
    · simp [mapHas_] at h
    · exact h
  | cons s rest ih =>
    intro acc h
    rw [List.foldl_cons]
    by_cases hs : (s.name == n) = true
    · exact ih _ (Or.inr (by simp [hs]))
    · refine ih _ ?_
      rcases h with h | h
      · simp only [mapHas_, List.any_cons, Bool.or_eq_true] at h
        rcases h with h | h
        · exact absurd h hs
        · exact Or.inl h
      · simp only [hs, Bool.false_eq_true, if_false]
        exact Or.inr h

theorem mapGet_isSome_of_has (l : List Sheet) (n : String)
    (h : mapHas_ l n = true) : (mapGet_ l n).isSome = true :=
  foldl_mapGet_isSome n l none (Or.inl h)

/-- C5: `pairUpSheets_` returns one pair per name in the union of the
two snapshots' sheet names, in ascending order, each pair holding the
source sheet of that name (or absent) and the backup sheet of that name
(or absent), and at least one side of every emitted pair is present. -/
theorem c5_pairing (sourceSheets lastBackupSheets : List Sheet)
    (h1 : (sourceSheets.map Sheet.name).Nodup)
    (h2 : (lastBackupSheets.map Sheet.name).Nodup) :
    pairUpSheets_ sourceSheets lastBackupSheets =
      (uniqueSheetNames_ sourceSheets lastBackupSheets).map (fun n =>
        (sourceSheets.find? (fun s => s.name == n),
          lastBackupSheets.find? (fun s => s.name == n))) ∧
    List.Sorted (· < ·) (uniqueSheetNames_ sourceSheets lastBackupSheets) ∧
    (∀ n, n ∈ uniqueSheetNames_ sourceSheets lastBackupSheets ↔
      (n ∈ sourceSheets.map Sheet.name ∨ n ∈ lastBackupSheets.map Sheet.name)) ∧
    (∀ pr ∈ pairUpSheets_ sourceSheets lastBackupSheets,
      pr.1.isSome = true ∨ pr.2.isSome = true) := by
  refine ⟨?_, uniqueSheetNames_sorted _ _, mem_uniqueSheetNames _ _, ?_⟩
  · rw [pairUpSheets_]
    apply List.map_congr_left
    intro n hn
    by_cases hsrc : mapHas_ sourceSheets n = true <;>
      by_cases hbak : mapHas_ lastBackupSheets n = true
    · simp only [hsrc, hbak, Bool.and_self, if_true]
      rw [mapGet_eq_find _ _ h1, mapGet_eq_find _ _ h2]
    · have hbak' : mapHas_ lastBackupSheets n = false := by
        cases hb : mapHas_ lastBackupSheets n
        · rfl
        · exact absurd hb hbak
      simp only [hsrc, hbak', Bool.and_false, Bool.false_eq_true, if_false, if_true]
      rw [mapGet_eq_find _ _ h1, find?_name_eq_none _ _ hbak']
    · have hsrc' : mapHas_ sourceSheets n = false := by
        cases hs : mapHas_ sourceSheets n
        · rfl
        · exact absurd hs hsrc
      simp only [hsrc', Bool.false_and, Bool.false_eq_true, if_false]
      rw [mapGet_eq_find _ _ h2, find?_name_eq_none _ _ hsrc']
    · have hsrc' : mapHas_ sourceSheets n = false := by
        cases hs : mapHas_ sourceSheets n
        · rfl
        · exact absurd hs hsrc
      have hbak' : mapHas_ lastBackupSheets n = false := by
        cases hb : mapHas_ lastBackupSheets n
        · rfl
        · exact absurd hb hbak
      rcases (mem_uniqueSheetNames sourceSheets lastBackupSheets n).mp hn with hmem | hmem
      · obtain ⟨s, hsmem, hname⟩ := List.mem_map.mp hmem
        simp only [mapHas_, List.any_eq_false] at hsrc'
        exact absurd (by simp [hname]) (hsrc' s hsmem)
      · obtain ⟨s, hsmem, hname⟩ := List.mem_map.mp hmem
        simp only [mapHas_, List.any_eq_false] at hbak'
        exact absurd (by simp [hname]) (hbak' s hsmem)
  · intro pr hpr
    rw [pairUpSheets_] at hpr
    obtain ⟨n, hn, rfl⟩ := List.mem_map.mp hpr
    rcases (mem_uniqueSheetNames sourceSheets lastBackupSheets n).mp hn with hmem | hmem
    · obtain ⟨s, hsmem, hname⟩ := List.mem_map.mp hmem
      have hsrc : mapHas_ sourceSheets n = true := by
        simp only [mapHas_, List.any_eq_true]
        exact ⟨s, hsmem, by simp [hname]⟩
      by_cases hbak : mapHas_ lastBackupSheets n = true
      · simp only [hsrc, hbak, Bool.and_self, if_true]
        exact Or.inl (mapGet_isSome_of_has _ _ hsrc)
      · have hbak' : mapHas_ lastBackupSheets n = false := by
          cases hb : mapHas_ lastBackupSheets n
          · rfl
          · exact absurd hb hbak
        simp only [hsrc, hbak', Bool.and_false, Bool.false_eq_true, if_false, if_true]
        exact Or.inl (mapGet_isSome_of_has _ _ hsrc)
    · obtain ⟨s, hsmem, hname⟩ := List.mem_map.mp hmem
      have hbak : mapHas_ lastBackupSheets n = true := by
        simp only [mapHas_, List.any_eq_true]
        exact ⟨s, hsmem, by simp [hname]⟩
      by_cases hsrc : mapHas_ sourceSheets n = true
      · simp only [hsrc, hbak, Bool.and_self, if_true]
        exact Or.inr (mapGet_isSome_of_has _ _ hbak)
      · have hsrc' : mapHas_ sourceSheets n = false := by
          cases hs : mapHas_ sourceSheets n
          · rfl
          · exact absurd hs hsrc
        simp only [hsrc', Bool.false_and, Bool.false_eq_true, if_false]
        exact Or.inr (mapGet_isSome_of_has _ _ hbak)

/-- C5 witness: the pairing facts hold on two concrete one-sheet
snapshots with different sheet names. -/
theorem c5_pairing_witness :
    pairUpSheets_ [(⟨"B", []⟩ : Sheet)] [(⟨"A", []⟩ : Sheet)] =
      (uniqueSheetNames_ [(⟨"B", []⟩ : Sheet)] [(⟨"A", []⟩ : Sheet)]).map (fun n =>
        (List.find? (fun s => s.name == n) [(⟨"B", []⟩ : Sheet)],
          List.find? (fun s => s.name == n) [(⟨"A", []⟩ : Sheet)])) ∧
    List.Sorted (· < ·) (uniqueSheetNames_ [(⟨"B", []⟩ : Sheet)] [(⟨"A", []⟩ : Sheet)]) ∧
    ("A" ∈ uniqueSheetNames_ [(⟨"B", []⟩ : Sheet)] [(⟨"A", []⟩ : Sheet)] ↔
      ("A" ∈ List.map Sheet.name [(⟨"B", []⟩ : Sheet)] ∨
        "A" ∈ List.map Sheet.name [(⟨"A", []⟩ : Sheet)])) :=
  have h := c5_pairing [(⟨"B", []⟩ : Sheet)] [(⟨"A", []⟩ : Sheet)] (by decide) (by decide)
  ⟨h.1, h.2.1, h.2.2.1 "A"⟩

end OfferTracker
